import Mathlib

/-!
Verification of the postgres cache backends of `salt-extras`
(`_cache/pgbytea.py` and `_cache/pgjsonb_encoded.py`).

The two modules are shallowly embedded: Python values are the inductive
`PVal`, JSON values (what `psycopg2.extras.Json` / the `jsonb` column hold)
are `JVal`, the database table is a list of rows, and each public operation
is a Lean function from the table state, a connection outcome and a
statement outcome to a result together with the trace of side actions
(log lines, `ROLLBACK` / `COMMIT` statements, connection close).
-/

namespace SaltCache

mutual

/-- Python strings are modelled as lists of Unicode code points, byte
strings as lists of byte values.  `PVal` covers the payload values the
cache plugins move around (the shapes `json.dumps` handles, plus `bytes`). -/
inductive PVal where
  | pnull : PVal
  | pbool : Bool → PVal
  | pint : Int → PVal
  | pstr : List Nat → PVal
  | pbytes : List Nat → PVal
  | plist : PList → PVal
  | pdict : PDict → PVal
deriving DecidableEq, Repr

inductive PList where
  | nil : PList
  | cons : PVal → PList → PList
deriving DecidableEq, Repr

inductive PDict where
  | nil : PDict
  | cons : List Nat → PVal → PDict → PDict
deriving DecidableEq, Repr

end

mutual

/-- JSON values, the contents of the `jsonb` column (object keys are
strings, i.e. code-point lists). -/
inductive JVal where
  | jnull : JVal
  | jbool : Bool → JVal
  | jint : Int → JVal
  | jstr : List Nat → JVal
  | jarr : JList → JVal
  | jobj : JObj → JVal
deriving DecidableEq, Repr

inductive JList where
  | nil : JList
  | cons : JVal → JList → JList
deriving DecidableEq, Repr

inductive JObj where
  | nil : JObj
  | cons : List Nat → JVal → JObj → JObj
deriving DecidableEq, Repr

end

mutual

/-- `json.dumps` as used by `psycopg2.extras.Json`: bytes are not JSON
serializable (Python raises `TypeError`, hence `Option`). -/
def pvalToJson : PVal → Option JVal
  | .pnull => some .jnull
  | .pbool b => some (.jbool b)
  | .pint n => some (.jint n)
  | .pstr s => some (.jstr s)
  | .pbytes _ => none
  | .plist xs =>
      match plistToJson xs with
      | some js => some (.jarr js)
      | none => none
  | .pdict kvs =>
      match pdictToJson kvs with
      | some js => some (.jobj js)
      | none => none

def plistToJson : PList → Option JList
  | .nil => some .nil
  | .cons v tl =>
      match pvalToJson v, plistToJson tl with
      | some j, some js => some (.cons j js)
      | _, _ => none

def pdictToJson : PDict → Option JObj
  | .nil => some .nil
  | .cons k v tl =>
      match pvalToJson v, pdictToJson tl with
      | some j, some js => some (.cons k j js)
      | _, _ => none

end

mutual

/-- `json.loads` / psycopg2's parsing of a `jsonb` column back into a
Python object (total: every stored JSON value parses). -/
def jsonToPVal : JVal → PVal
  | .jnull => .pnull
  | .jbool b => .pbool b
  | .jint n => .pint n
  | .jstr s => .pstr s
  | .jarr xs => .plist (jlistToPVal xs)
  | .jobj kvs => .pdict (jobjToPVal kvs)

def jlistToPVal : JList → PList
  | .nil => .nil
  | .cons j js => .cons (jsonToPVal j) (jlistToPVal js)

def jobjToPVal : JObj → PDict
  | .nil => .nil
  | .cons k j js => .cons k (jsonToPVal j) (jobjToPVal js)

end

mutual

theorem pvalToJson_roundtrip : ∀ (v : PVal) (j : JVal),
    pvalToJson v = some j → jsonToPVal j = v
  | .pnull, j, h => by
      simp [pvalToJson] at h; subst h; rfl
  | .pbool b, j, h => by
      simp [pvalToJson] at h; subst h; rfl
  | .pint n, j, h => by
      simp [pvalToJson] at h; subst h; rfl
  | .pstr s, j, h => by
      simp [pvalToJson] at h; subst h; rfl
  | .plist xs, j, h => by
      simp only [pvalToJson] at h
      cases hx : plistToJson xs with
      | none => rw [hx] at h; exact absurd h (by simp)
      | some js =>
          rw [hx] at h
          simp only [Option.some.injEq] at h
          subst h
          simp [jsonToPVal, plistToJson_roundtrip xs js hx]
  | .pdict kvs, j, h => by
      simp only [pvalToJson] at h
      cases hx : pdictToJson kvs with
      | none => rw [hx] at h; exact absurd h (by simp)
      | some js =>
          rw [hx] at h
          simp only [Option.some.injEq] at h
          subst h
          simp [jsonToPVal, pdictToJson_roundtrip kvs js hx]

theorem plistToJson_roundtrip : ∀ (xs : PList) (js : JList),
    plistToJson xs = some js → jlistToPVal js = xs
  | .nil, js, h => by
      simp [plistToJson] at h; subst h; rfl
  | .cons v tl, js, h => by
      simp only [plistToJson] at h
      cases hv : pvalToJson v with
      | none => rw [hv] at h; exact absurd h (by simp)
      | some j =>
          cases ht : plistToJson tl with
          | none => rw [hv, ht] at h; exact absurd h (by simp)
          | some jtl =>
              rw [hv, ht] at h
              simp only [Option.some.injEq] at h
              subst h
              simp [jlistToPVal, pvalToJson_roundtrip v j hv,
                plistToJson_roundtrip tl jtl ht]

theorem pdictToJson_roundtrip : ∀ (kvs : PDict) (js : JObj),
    pdictToJson kvs = some js → jobjToPVal js = kvs
  | .nil, js, h => by
      simp [pdictToJson] at h; subst h; rfl
  | .cons k v tl, js, h => by
      simp only [pdictToJson] at h
      cases hv : pvalToJson v with
      | none => rw [hv] at h; exact absurd h (by simp)
      | some j =>
          cases ht : pdictToJson tl with
          | none => rw [hv, ht] at h; exact absurd h (by simp)
          | some jtl =>
              rw [hv, ht] at h
              simp only [Option.some.injEq] at h
              subst h
              simp [jobjToPVal, pvalToJson_roundtrip v j hv,
                pdictToJson_roundtrip tl jtl ht]

end

/-! ## base64 (`salt.utils.stringutils.base64`, i.e. the stdlib codec)

`b64encode` maps a byte string to the ASCII codes of its base64 text;
`b64decode` is the strict inverse (`none` models `binascii.Error`). -/

/-- ASCII code of the base64 alphabet character for a 6-bit group. -/
def b64Char (n : Nat) : Nat :=
  if n < 26 then 65 + n
  else if n < 52 then 97 + (n - 26)
  else if n < 62 then 48 + (n - 52)
  else if n = 62 then 43
  else 47

/-- 6-bit group for an ASCII code, `none` when outside the alphabet. -/
def b64Index (c : Nat) : Option Nat :=
  if 65 ≤ c ∧ c ≤ 90 then some (c - 65)
  else if 97 ≤ c ∧ c ≤ 122 then some (c - 97 + 26)
  else if 48 ≤ c ∧ c ≤ 57 then some (c - 48 + 52)
  else if c = 43 then some 62
  else if c = 47 then some 63
  else none

/-- `base64.b64encode` over byte lists (61 is the ASCII code of the
padding character). -/
def b64encode : List Nat → List Nat
  | [] => []
  | [a] => [b64Char (a / 4), b64Char (a % 4 * 16), 61, 61]
  | [a, b] => [b64Char (a / 4), b64Char (a % 4 * 16 + b / 16),
      b64Char (b % 16 * 4), 61]
  | a :: b :: c :: rest =>
      b64Char (a / 4) :: b64Char (a % 4 * 16 + b / 16) ::
        b64Char (b % 16 * 4 + c / 64) :: b64Char (c % 64) :: b64encode rest

/-- `base64.b64decode` over ASCII-code lists. -/
def b64decode : List Nat → Option (List Nat)
  | [] => some []
  | c1 :: c2 :: c3 :: c4 :: rest =>
      match b64Index c1, b64Index c2 with
      | some i1, some i2 =>
          if c3 = 61 ∧ c4 = 61 ∧ rest = [] then
            some [i1 * 4 + i2 / 16]
          else
            match b64Index c3 with
            | some i3 =>
                if c4 = 61 ∧ rest = [] then
                  some [i1 * 4 + i2 / 16, i2 % 16 * 16 + i3 / 4]
                else
                  match b64Index c4, b64decode rest with
                  | some i4, some bs =>
                      some ((i1 * 4 + i2 / 16) :: (i2 % 16 * 16 + i3 / 4) ::
                        (i3 % 4 * 64 + i4) :: bs)
                  | _, _ => none
            | none => none
      | _, _ => none
  | _ => none

theorem b64Index_b64Char : ∀ n, n < 64 → b64Index (b64Char n) = some n := by
  decide

theorem b64Char_ne_pad : ∀ n, n < 64 → b64Char n ≠ 61 := by
  decide

theorem b64decode_b64encode : ∀ (bs : List Nat), (∀ x ∈ bs, x < 256) →
    b64decode (b64encode bs) = some bs
  | [], _ => rfl
  | [a], h => by
      have ha : a < 256 := h a (by simp)
      have h1 : a / 4 < 64 := by omega
      have h2 : a % 4 * 16 < 64 := by omega
      simp only [b64encode, b64decode, b64Index_b64Char _ h1,
        b64Index_b64Char _ h2]
      rw [if_pos (by simp)]
      simp only [Option.some.injEq, List.cons.injEq, and_true]
      omega
  | [a, b], h => by
      have ha : a < 256 := h a (by simp)
      have hb : b < 256 := h b (by simp)
      have h1 : a / 4 < 64 := by omega
      have h2 : a % 4 * 16 + b / 16 < 64 := by omega
      have h3 : b % 16 * 4 < 64 := by omega
      simp only [b64encode, b64decode, b64Index_b64Char _ h1,
        b64Index_b64Char _ h2, b64Index_b64Char _ h3]
      rw [if_neg (fun hp => b64Char_ne_pad _ h3 hp.1)]
      rw [if_pos (by simp)]
      simp only [Option.some.injEq, List.cons.injEq, and_true]
      omega
  | a :: b :: c :: d :: rest, h => by
      have ha : a < 256 := h a (by simp)
      have hb : b < 256 := h b (by simp)
      have hc : c < 256 := h c (by simp)
      have h1 : a / 4 < 64 := by omega
      have h2 : a % 4 * 16 + b / 16 < 64 := by omega
      have h3 : b % 16 * 4 + c / 64 < 64 := by omega
      have h4 : c % 64 < 64 := by omega
      have ih := b64decode_b64encode (d :: rest)
        (fun x hx => h x (by simp at hx ⊢; tauto))
      simp only [b64encode, b64decode, b64Index_b64Char _ h1,
        b64Index_b64Char _ h2, b64Index_b64Char _ h3, b64Index_b64Char _ h4]
      rw [if_neg (fun hp => b64Char_ne_pad _ h3 hp.1)]
      rw [if_neg (fun hp => b64Char_ne_pad _ h4 hp.1)]
      rw [ih]
      simp only [Option.some.injEq, List.cons.injEq, and_true]
      omega
  | [a, b, c], h => by
      have ha : a < 256 := h a (by simp)
      have hb : b < 256 := h b (by simp)
      have hc : c < 256 := h c (by simp)
      have h1 : a / 4 < 64 := by omega
      have h2 : a % 4 * 16 + b / 16 < 64 := by omega
      have h3 : b % 16 * 4 + c / 64 < 64 := by omega
      have h4 : c % 64 < 64 := by omega
      simp only [b64encode, b64decode, b64Index_b64Char _ h1,
        b64Index_b64Char _ h2, b64Index_b64Char _ h3, b64Index_b64Char _ h4]
      rw [if_neg (fun hp => b64Char_ne_pad _ h3 hp.1)]
      rw [if_neg (fun hp => b64Char_ne_pad _ h4 hp.1)]
      simp only [Option.some.injEq, List.cons.injEq, and_true]
      omega

/-! ## UTF-8 (`salt.utils.stringutils.to_str`, i.e. `bytes.decode("utf-8")`)

An incremental strict UTF-8 decoder: `pending` continuation bytes are
still expected, `cp` is the partial code point, `lo`/`hi` bound the next
continuation byte (this encodes the surrogate and overlong restrictions
of table 3-7 of the Unicode standard, which Python's strict codec
enforces). -/

def utf8Run (pending cp lo hi : Nat) : List Nat → Option (List Nat)
  | [] => if pending = 0 then some [] else none
  | b :: rest =>
      if pending = 0 then
        if b ≤ 127 then (utf8Run 0 0 0 0 rest).map (fun t => b :: t)
        else if 194 ≤ b && b ≤ 223 then utf8Run 1 (b - 192) 128 191 rest
        else if b = 224 then utf8Run 2 0 160 191 rest
        else if b = 237 then utf8Run 2 13 128 159 rest
        else if 225 ≤ b && b ≤ 239 then utf8Run 2 (b - 224) 128 191 rest
        else if b = 240 then utf8Run 3 0 144 191 rest
        else if b = 244 then utf8Run 3 4 128 143 rest
        else if 241 ≤ b && b ≤ 243 then utf8Run 3 (b - 240) 128 191 rest
        else none
      else
        if lo ≤ b && b ≤ hi then
          if pending = 1 then
            (utf8Run 0 0 0 0 rest).map (fun t => (cp * 64 + (b - 128)) :: t)
          else utf8Run (pending - 1) (cp * 64 + (b - 128)) 128 191 rest
        else none

/-- `bytes.decode("utf-8")`: `some` of the code points when the byte
string is valid UTF-8, else `none` (models `UnicodeDecodeError`). -/
def utf8Decode (bs : List Nat) : Option (List Nat) :=
  utf8Run 0 0 0 0 bs

/-! ## Errors, side actions, and the connection scope (`_get_serv`) -/

/-- The psycopg2 exception classes the modules handle.  Every listed
class except `interfaceError` is a subclass of `psycopg2.DatabaseError`;
all of them are subclasses of `psycopg2.Error`. -/
inductive PgError where
  | operationalError
  | integrityError
  | dataError
  | programmingError
  | internalError
  | interfaceError
deriving DecidableEq, Repr

/-- Would `except psycopg2.DatabaseError` catch this class? -/
def PgError.isDatabaseError : PgError → Bool
  | .interfaceError => false
  | _ => true

/-- Python exceptions that can reach the public interface of the cache
modules. -/
inductive PyError where
  | pg : PgError → PyError
  | typeError : PyError
  | indexError : PyError
  | valueError : PyError
  | binasciiError : PyError
  | saltDeserializationError : PyError
  | saltMasterError : PyError
deriving DecidableEq, Repr

/-- Is the exception caught by the `except psycopg2.DatabaseError` arm of
`_get_serv`? -/
def PyError.isDatabaseError : PyError → Bool
  | .pg e => e.isDatabaseError
  | _ => false

/-- The payload value attached to a `log.error("data: %s", ...)` line. -/
inductive LogData where
  | raw : List Nat → LogData
  | js : JVal → LogData
  | nodata
deriving DecidableEq, Repr

/-- Observable side actions of an operation: the established connection,
log lines, the explicit `ROLLBACK` / `COMMIT` statements, and the final
`conn.close()`.  `logDiag table bank key payload` stands for the block of
`log.error` context lines the modules emit on a handled failure. -/
inductive Action where
  | connect
  | logError
  | logDiag : String → String → String → LogData → Action
  | sqlRollback
  | sqlCommit
  | close
deriving DecidableEq, Repr

deriving instance DecidableEq for Except

/-- An operation's observable outcome: its action trace and its returned
value or escaped exception. -/
structure OpOut (α : Type) where
  acts : List Action
  res : Except PyError α
deriving DecidableEq, Repr

/-- `_get_serv(commit=...)` around one operation body.  `connOk = false`
models `psycopg2.OperationalError` out of `psycopg2.connect`, which the
scope converts into `salt.exceptions.SaltMasterError`.  Otherwise the
body runs; a `psycopg2.DatabaseError` escaping it is logged, rolled back
and re-raised; any other escape skips the commit/rollback arm; the
`finally` block closes the connection on every post-connect path. -/
def getServ (connOk : Bool) (commit : Bool) (body : OpOut α) : OpOut α :=
  if !connOk then ⟨[], .error .saltMasterError⟩
  else
    match body.res with
    | .ok a =>
        ⟨Action.connect :: body.acts ++
          [if commit then Action.sqlCommit else Action.sqlRollback,
           Action.close], .ok a⟩
    | .error e =>
        if e.isDatabaseError then
          ⟨Action.connect :: body.acts ++
            [Action.logError, Action.sqlRollback, Action.close], .error e⟩
        else
          ⟨Action.connect :: body.acts ++ [Action.close], .error e⟩

/-! ## The JSON variant (`pgjsonb_encoded.py`)

A table row of the `jsonb` schema.  Only the columns the module reads or
writes are modelled (the `id uuid` column of the schema is never touched
by this variant's code). -/

structure JRow where
  bank : String
  psql_key : String
  data : JVal
  encoded : Bool
  data_changed : Int
deriving DecidableEq, Repr

/-- `WHERE bank='{bank}' AND psql_key='{key}'` for a jsonb row. -/
def jMatch (bank key : String) (r : JRow) : Bool :=
  r.bank = bank && r.psql_key = key

/-- `SELECT data, encoded FROM t WHERE bank=... AND psql_key=...`. -/
def selectJ (db : List JRow) (bank key : String) : List (JVal × Bool) :=
  (db.filter (jMatch bank key)).map (fun r => (r.data, r.encoded))

/-- `INSERT INTO t (bank, psql_key, data, encoded) VALUES ... ON CONFLICT
(bank, psql_key) DO UPDATE SET data = EXCLUDED.data, encoded =
EXCLUDED.encoded`, together with the schema's `data_changed` trigger
(fires only when `data` actually changes; `now` models
`current_timestamp`). -/
def upsertJ (db : List JRow) (bank key : String) (j : JVal) (enc : Bool)
    (now : Int) : List JRow :=
  if db.any (jMatch bank key) then
    db.map (fun r => if jMatch bank key r then
      ⟨r.bank, r.psql_key, j, enc,
        if r.data = j then r.data_changed else now⟩ else r)
  else db ++ [⟨bank, key, j, enc, now⟩]

/-- The bytes prologue of `pgjsonb_encoded.store`: bytes that decode as
UTF-8 become text with `encoded = false`; bytes that raise
`UnicodeDecodeError` are base64-encoded with `encoded = true`; any other
payload passes through unchanged. -/
def jsonbPrep : PVal → PVal × Bool
  | .pbytes bs =>
      match utf8Decode bs with
      | some cps => (.pstr cps, false)
      | none => (.pstr (b64encode bs), true)
  | v => (v, false)

/-- `pgjsonb_encoded.store`.  `execErr` is the outcome of `cur.execute`
(`none` = the statement succeeded); the psycopg2 errors it may carry are
all caught by the module's `except` blocks and swallowed after logging.
A payload `psycopg2.extras.Json` cannot serialize raises `TypeError`
while the query string is built, before the inner `try`.  Returns the
operation output and the table state after the scope. -/
def storeJ (db : List JRow) (connOk : Bool) (execErr : Option PgError)
    (table bank key : String) (v : PVal) (now : Int) :
    OpOut Unit × List JRow :=
  if !connOk then (getServ false true ⟨[], .ok ()⟩, db)
  else
    match pvalToJson (jsonbPrep v).1 with
    | none => (getServ true true ⟨[], .error .typeError⟩, db)
    | some j =>
        match execErr with
        | some _ =>
            (getServ true true
              ⟨[Action.logError, Action.logDiag table bank key (.js j)],
               .ok ()⟩, db)
        | none =>
            (getServ true true ⟨[], .ok ()⟩,
             upsertJ db bank key j (jsonbPrep v).2 now)

/-- `pgjsonb_encoded.fetch`: select `(data, encoded)`, return `{}` on an
empty result set (the `IndexError` handler), reverse the base64
transformation when `encoded` is set. -/
def fetchJ (db : List JRow) (connOk : Bool) (execErr : Option PgError)
    (table bank key : String) : OpOut PVal :=
  getServ connOk true
    (match execErr with
     | some e => ⟨[], .error (.pg e)⟩
     | none =>
        match selectJ db bank key with
        | [] => ⟨[Action.logError, Action.logDiag table bank key .nodata],
            .ok (.pdict .nil)⟩
        | (j, enc) :: _ =>
            if enc then
              match j with
              | .jstr s =>
                  match b64decode s with
                  | some bs => ⟨[], .ok (.pbytes bs)⟩
                  | none => ⟨[], .error .binasciiError⟩
              | _ => ⟨[], .error .typeError⟩
            else ⟨[], .ok (jsonToPVal j)⟩)

/-- Python truthiness of the optional `key` argument (`if key:`): an
omitted key and an empty-string key both fail the test. -/
def keyTruthy : Option String → Bool
  | none => false
  | some k => !(k = "")

/-- `DELETE FROM t WHERE bank='{bank}'`, plus `AND psql_key='{key}'`
exactly when the key argument is truthy. -/
def deleteJ (db : List JRow) (bank : String) (key : Option String) :
    List JRow :=
  if keyTruthy key then
    db.filter (fun r => !(jMatch bank (key.getD "") r))
  else db.filter (fun r => !(r.bank = bank))

/-- `pgjsonb_encoded.flush`: `true` when the delete statement executed,
`false` (after logging) when it raised a `psycopg2.Error`. -/
def flushJ (db : List JRow) (connOk : Bool) (execErr : Option PgError)
    (table bank : String) (key : Option String) : OpOut Bool × List JRow :=
  if !connOk then (getServ false true ⟨[], .ok true⟩, db)
  else
    match execErr with
    | some _ =>
        (getServ true true
          ⟨[Action.logError,
            Action.logDiag table bank (key.getD "None") .nodata],
           .ok false⟩, db)
    | none => (getServ true true ⟨[], .ok true⟩, deleteJ db bank key)

/-- The result expression of `list_` in both variants:
`tuple(_[0] for _ in data if len(_) == 1) if data else ()`, over the raw
`fetchall()` result (`none` models a `None` result, which the guard also
maps to the empty tuple). -/
def listRowsExpr (res : Option (List (List α))) : List α :=
  match res with
  | none => []
  | some rows =>
      if rows.isEmpty then []
      else rows.filterMap (fun r => if r.length = 1 then r.head? else none)

/-- The body of `list_` over a raw query result. -/
def listBody (execErr : Option PgError) (res : Option (List (List α))) :
    OpOut (List α) :=
  match execErr with
  | some e => ⟨[], .error (.pg e)⟩
  | none => ⟨[], .ok (listRowsExpr res)⟩

/-- `pgjsonb_encoded.list_`: the keys of the bank. -/
def listJ (db : List JRow) (connOk : Bool) (execErr : Option PgError)
    (bank : String) : OpOut (List String) :=
  getServ connOk true (listBody execErr
    (some ((db.filter (fun r => r.bank = bank)).map (fun r => [r.psql_key]))))

/-- `pgjsonb_encoded.contains`: `SELECT COUNT(data) ...` compared against
1 (the `data` column is never null here, so the count is the number of
matching rows). -/
def containsJ (db : List JRow) (connOk : Bool) (execErr : Option PgError)
    (bank key : String) : OpOut Bool :=
  getServ connOk true
    (match execErr with
     | some e => ⟨[], .error (.pg e)⟩
     | none => ⟨[], .ok (decide ((db.filter (jMatch bank key)).length = 1))⟩)

/-- `pgjsonb_encoded.updated`: the epoch value of `data_changed`, or 0 on
an empty result set (the `IndexError` handler). -/
def updatedJ (db : List JRow) (connOk : Bool) (execErr : Option PgError)
    (table bank key : String) : OpOut Int :=
  getServ connOk true
    (match execErr with
     | some e => ⟨[], .error (.pg e)⟩
     | none =>
        match (db.filter (jMatch bank key)).map (fun r => r.data_changed) with
        | [] => ⟨[Action.logError, Action.logDiag table bank key .nodata],
            .ok 0⟩
        | t :: _ => ⟨[], .ok t⟩)

/-! ## The binary variant (`pgbytea.py`) -/

/-- The external serialization codec (`salt.payload.dumps` / `loads`):
a collaborator interface, not code of this repository.  `loads` returns
`none` when deserialization fails (`SaltDeserializationError`). -/
structure Codec where
  dumps : PVal → List Nat
  loads : List Nat → Option PVal

/-- A table row of the `bytea` schema. -/
structure BRow where
  bank : String
  psql_key : String
  data : List Nat
  id : String
  data_changed : Int
deriving DecidableEq, Repr

/-- `WHERE bank='{bank}' AND psql_key='{key}'` for a bytea row. -/
def bMatch (bank key : String) (r : BRow) : Bool :=
  r.bank = bank && r.psql_key = key

/-- `SELECT data FROM t WHERE bank=... AND psql_key=...`. -/
def selectDataB (db : List BRow) (bank key : String) : List (List Nat) :=
  (db.filter (bMatch bank key)).map (fun r => r.data)

/-- `INSERT INTO t (bank, psql_key, data) VALUES ... ON CONFLICT (bank,
psql_key) DO UPDATE SET data = EXCLUDED.data`, together with the
schema's defaults and trigger: `newId` models `gen_random_uuid()` for a
fresh row (the `id` of an existing row never changes), and
`data_changed` advances to `now` only when the payload actually
changes. -/
def upsertB (db : List BRow) (bank key : String) (d : List Nat)
    (newId : String) (now : Int) : List BRow :=
  if db.any (bMatch bank key) then
    db.map (fun r => if bMatch bank key r then
      ⟨r.bank, r.psql_key, d, r.id,
        if r.data = d then r.data_changed else now⟩ else r)
  else db ++ [⟨bank, key, d, newId, now⟩]

/-- `pgbytea.store`: serialize via the codec, upsert; every
`psycopg2` error (and `TypeError`) out of `cur.execute` is logged with
its diagnostic context and swallowed. -/
def storeB (c : Codec) (db : List BRow) (connOk : Bool)
    (execErr : Option PgError) (table bank key : String) (v : PVal)
    (newId : String) (now : Int) : OpOut Unit × List BRow :=
  if !connOk then (getServ false true ⟨[], .ok ()⟩, db)
  else
    match execErr with
    | some _ =>
        (getServ true true
          ⟨[Action.logError,
            Action.logDiag table bank key (.raw (c.dumps v))],
           .ok ()⟩, db)
    | none =>
        (getServ true true ⟨[], .ok ()⟩,
         upsertB db bank key (c.dumps v) newId now)

/-- `pgbytea.fetch`: select `data`, return `{}` on an empty result set
(the `IndexError` handler), otherwise deserialize via the codec (a
deserialization failure is not caught by the `except IndexError` arm and
escapes). -/
def fetchB (c : Codec) (db : List BRow) (connOk : Bool)
    (execErr : Option PgError) (table bank key : String) : OpOut PVal :=
  getServ connOk true
    (match execErr with
     | some e => ⟨[], .error (.pg e)⟩
     | none =>
        match selectDataB db bank key with
        | [] => ⟨[Action.logError, Action.logDiag table bank key .nodata],
            .ok (.pdict .nil)⟩
        | d :: _ =>
            match c.loads d with
            | some v => ⟨[], .ok v⟩
            | none => ⟨[], .error .saltDeserializationError⟩)

/-- `DELETE FROM t WHERE bank='{bank}'`, plus `AND psql_key='{key}'`
exactly when the key argument is truthy (bytea rows). -/
def deleteB (db : List BRow) (bank : String) (key : Option String) :
    List BRow :=
  if keyTruthy key then
    db.filter (fun r => !(bMatch bank (key.getD "") r))
  else db.filter (fun r => !(r.bank = bank))

/-- `pgbytea.flush`. -/
def flushB (db : List BRow) (connOk : Bool) (execErr : Option PgError)
    (table bank : String) (key : Option String) : OpOut Bool × List BRow :=
  if !connOk then (getServ false true ⟨[], .ok true⟩, db)
  else
    match execErr with
    | some _ =>
        (getServ true true
          ⟨[Action.logError,
            Action.logDiag table bank (key.getD "None") .nodata],
           .ok false⟩, db)
    | none => (getServ true true ⟨[], .ok true⟩, deleteB db bank key)

/-- `pgbytea.list_`. -/
def listB (db : List BRow) (connOk : Bool) (execErr : Option PgError)
    (bank : String) : OpOut (List String) :=
  getServ connOk true (listBody execErr
    (some ((db.filter (fun r => r.bank = bank)).map (fun r => [r.psql_key]))))

/-- `pgbytea.contains`. -/
def containsB (db : List BRow) (connOk : Bool) (execErr : Option PgError)
    (bank key : String) : OpOut Bool :=
  getServ connOk true
    (match execErr with
     | some e => ⟨[], .error (.pg e)⟩
     | none => ⟨[], .ok (decide ((db.filter (bMatch bank key)).length = 1))⟩)

/-- `pgbytea.updated`. -/
def updatedB (db : List BRow) (connOk : Bool) (execErr : Option PgError)
    (table bank key : String) : OpOut Int :=
  getServ connOk true
    (match execErr with
     | some e => ⟨[], .error (.pg e)⟩
     | none =>
        match (db.filter (bMatch bank key)).map (fun r => r.data_changed) with
        | [] => ⟨[Action.logError, Action.logDiag table bank key .nodata],
            .ok 0⟩
        | t :: _ => ⟨[], .ok t⟩)

/-- The nil UUID returned by `pgbytea.id_` for a missing row. -/
def nilUuid : String := "00000000-0000-0000-0000-000000000000"

/-- `pgbytea.id_`: the row's `id` column, or the nil UUID on an empty
result set (the `IndexError` handler). -/
def idB (db : List BRow) (connOk : Bool) (execErr : Option PgError)
    (table bank key : String) : OpOut String :=
  getServ connOk true
    (match execErr with
     | some e => ⟨[], .error (.pg e)⟩
     | none =>
        match (db.filter (bMatch bank key)).map (fun r => r.id) with
        | [] => ⟨[Action.logError, Action.logDiag table bank key .nodata],
            .ok nilUuid⟩
        | s :: _ => ⟨[], .ok s⟩)

/-! ## The configuration resolver (`_get_options`) -/

/-- A value of the host's configuration mapping. -/
inductive OptVal where
  | vstr : String → OptVal
  | vint : Int → OptVal
  | vnone
deriving DecidableEq, Repr

/-- One decimal digit. -/
def decDigit (c : Char) : Option Nat :=
  if c.isDigit then some (c.toNat - 48) else none

/-- A nonempty all-digits string as a number. -/
def decNat : List Char → Option Nat
  | [] => none
  | cs => cs.foldl (fun acc c =>
      match acc, decDigit c with
      | some n, some d => some (n * 10 + d)
      | _, _ => none) (some 0)

/-- Whitespace stripped by Python's `int(str)`. -/
def isPySpace (c : Char) : Bool :=
  c = ' ' || c = '\t' || c = '\n' || c = '\r'

/-- Python `int(str)`: surrounding whitespace is stripped, an optional
sign precedes the digits. -/
def pyIntParse (s : String) : Option Int :=
  match ((s.toList.dropWhile isPySpace).reverse.dropWhile isPySpace).reverse with
  | '-' :: cs => (decNat cs).map (fun n => -(n : Int))
  | '+' :: cs => (decNat cs).map (fun n => (n : Int))
  | cs => (decNat cs).map (fun n => (n : Int))

/-- Python `int(x)` over the option values that can occur: ints pass
through, strings parse or raise `ValueError`, `None` raises
`TypeError`. -/
def pyIntOf : OptVal → Except PyError Int
  | .vint n => .ok n
  | .vstr s =>
      match pyIntParse s with
      | some n => .ok n
      | none => .error .valueError
  | .vnone => .error .typeError

/-- The resolved connection descriptor. -/
structure PgOptions where
  host : OptVal
  user : OptVal
  password : OptVal
  dbname : OptVal
  table : OptVal
  port : Int
deriving DecidableEq, Repr

/-- `opts.pop(k, dflt)` on the deep copy of `__opts__`.  The pops touch
only the copy (so the host mapping is never mutated) and no key is
popped twice, so effect-free lookups are a faithful model. -/
def popOpt (opts : List (String × OptVal)) (k : String) (dflt : OptVal) :
    OptVal :=
  (opts.lookup k).getD dflt

/-- `pgbytea._get_options`. -/
def getOptionsBytea (opts : List (String × OptVal)) :
    Except PyError PgOptions :=
  match pyIntOf (popOpt opts "cache.pgbytea.port" (.vint 5432)) with
  | .error e => .error e
  | .ok p => .ok
      { host := popOpt opts "cache.pgbytea.host" (.vstr "127.0.0.1")
        user := popOpt opts "cache.pgbytea.user" .vnone
        password := popOpt opts "cache.pgbytea.password"
          (popOpt opts "cache.pgbytea.passwd" .vnone)
        dbname := popOpt opts "cache.pgbytea.dbname"
          (popOpt opts "cache.pgbytea.database" (.vstr "salt_cache"))
        table := popOpt opts "cache.pgbytea.table_name" (.vstr "salt_cache")
        port := p }

/-- `pgjsonb_encoded._get_options`. -/
def getOptionsJsonb (opts : List (String × OptVal)) :
    Except PyError PgOptions :=
  match pyIntOf (popOpt opts "cache.pgjsonb_encoded.port" (.vint 5432)) with
  | .error e => .error e
  | .ok p => .ok
      { host := popOpt opts "cache.pgjsonb_encoded.host" (.vstr "127.0.0.1")
        user := popOpt opts "cache.pgjsonb_encoded.user" .vnone
        password := popOpt opts "cache.pgjsonb_encoded.password"
          (popOpt opts "cache.pgjsonb_encoded.passwd" .vnone)
        dbname := popOpt opts "cache.pgjsonb_encoded.dbname"
          (popOpt opts "cache.pgjsonb_encoded.database" (.vstr "salt_cache"))
        table := popOpt opts "cache.pgjsonb_encoded.table_name"
          (.vstr "salt_cache")
        port := p }

/-! ## Helper lemmas about the SQL semantics -/

/-- The (bank, psql_key) primary key of a jsonb row. -/
def keyJ (r : JRow) : String × String := (r.bank, r.psql_key)

/-- The (bank, psql_key) primary key of a bytea row. -/
def keyB (r : BRow) : String × String := (r.bank, r.psql_key)

/-- The primary-key invariant of the table: no two rows share
(bank, psql_key). -/
def uniqJ (db : List JRow) : Prop :=
  db.Pairwise (fun r s => keyJ r ≠ keyJ s)

/-- The primary-key invariant of the table: no two rows share
(bank, psql_key). -/
def uniqB (db : List BRow) : Prop :=
  db.Pairwise (fun r s => keyB r ≠ keyB s)

theorem jMatch_iff (bank key : String) (r : JRow) :
    jMatch bank key r = true ↔ keyJ r = (bank, key) := by
  simp [jMatch, keyJ, Prod.ext_iff]

theorem bMatch_iff (bank key : String) (r : BRow) :
    bMatch bank key r = true ↔ keyB r = (bank, key) := by
  simp [bMatch, keyB, Prod.ext_iff]

/-- After a conditional in-place update of every matching element of a
list that contains a match, the first projected value of the filtered
list is the updated one. -/
theorem any_filter_head {α β : Type} (p : α → Bool) (f : α → α) (g : α → β)
    (y : β) (hf : ∀ a, p a = true → p (f a) = true ∧ g (f a) = y) :
    ∀ (l : List α), l.any p = true →
      (((l.map (fun a => if p a then f a else a)).filter p).map g).head?
        = some y
  | [], h => by simp at h
  | a :: tl, h => by
      by_cases ha : p a
      · simp [ha, (hf a ha).1, (hf a ha).2]
      · have htl : tl.any p = true := by
          simp only [List.any_cons, Bool.or_eq_true] at h
          tauto
        simpa [ha] using any_filter_head p f g y hf tl htl

theorem selectJ_upsertJ_head (db : List JRow) (bank key : String) (j : JVal)
    (enc : Bool) (now : Int) :
    (selectJ (upsertJ db bank key j enc now) bank key).head? = some (j, enc) := by
  unfold upsertJ
  by_cases h : db.any (jMatch bank key)
  · rw [if_pos h]
    exact any_filter_head (jMatch bank key)
      (fun r => ⟨r.bank, r.psql_key, j, enc,
        if r.data = j then r.data_changed else now⟩)
      (fun r => (r.data, r.encoded)) (j, enc)
      (fun r hr => ⟨by simpa [jMatch] using hr, rfl⟩) db h
  · rw [if_neg h]
    have hnil : db.filter (jMatch bank key) = [] := by
      simp only [List.any_eq_true, not_exists, not_and] at h
      refine List.filter_eq_nil_iff.mpr ?_
      intro r hr
      simp [h r hr]
    simp [selectJ, List.filter_append, hnil, jMatch]

theorem selectDataB_upsertB_head (db : List BRow) (bank key : String)
    (d : List Nat) (newId : String) (now : Int) :
    (selectDataB (upsertB db bank key d newId now) bank key).head? = some d := by
  unfold upsertB
  by_cases h : db.any (bMatch bank key)
  · rw [if_pos h]
    exact any_filter_head (bMatch bank key)
      (fun r => ⟨r.bank, r.psql_key, d, r.id,
        if r.data = d then r.data_changed else now⟩)
      (fun r => r.data) d
      (fun r hr => ⟨by simpa [bMatch] using hr, rfl⟩) db h
  · rw [if_neg h]
    have hnil : db.filter (bMatch bank key) = [] := by
      simp only [List.any_eq_true, not_exists, not_and] at h
      refine List.filter_eq_nil_iff.mpr ?_
      intro r hr
      simp [h r hr]
    simp [selectDataB, List.filter_append, hnil, bMatch]

theorem uniqJ_upsertJ (db : List JRow) (bank key : String) (j : JVal)
    (enc : Bool) (now : Int) (h : uniqJ db) :
    uniqJ (upsertJ db bank key j enc now) := by
  unfold upsertJ
  by_cases ha : db.any (jMatch bank key)
  · rw [if_pos ha]
    unfold uniqJ at h ⊢
    rw [List.pairwise_map]
    refine h.imp (fun {r s} hrs => ?_)
    have hr : ∀ t : JRow, keyJ (if jMatch bank key t then
        (⟨t.bank, t.psql_key, j, enc,
          if t.data = j then t.data_changed else now⟩ : JRow) else t) = keyJ t := by
      intro t
      by_cases hm : jMatch bank key t <;> simp [hm, keyJ]
    rw [hr, hr]
    exact hrs
  · rw [if_neg ha]
    refine List.pairwise_append.mpr ⟨h, List.pairwise_singleton _ _, ?_⟩
    intro r hr s hs
    simp only [List.mem_singleton] at hs
    subst hs
    simp only [List.any_eq_true, not_exists, not_and] at ha
    have := ha r hr
    simp only [jMatch, Bool.and_eq_true, decide_eq_true_eq] at this
    simp only [keyJ, ne_eq, Prod.mk.injEq]
    tauto

theorem uniqB_upsertB (db : List BRow) (bank key : String) (d : List Nat)
    (newId : String) (now : Int) (h : uniqB db) :
    uniqB (upsertB db bank key d newId now) := by
  unfold upsertB
  by_cases ha : db.any (bMatch bank key)
  · rw [if_pos ha]
    unfold uniqB at h ⊢
    rw [List.pairwise_map]
    refine h.imp (fun {r s} hrs => ?_)
    have hr : ∀ t : BRow, keyB (if bMatch bank key t then
        (⟨t.bank, t.psql_key, d, t.id,
          if t.data = d then t.data_changed else now⟩ : BRow) else t) = keyB t := by
      intro t
      by_cases hm : bMatch bank key t <;> simp [hm, keyB]
    rw [hr, hr]
    exact hrs
  · rw [if_neg ha]
    refine List.pairwise_append.mpr ⟨h, List.pairwise_singleton _ _, ?_⟩
    intro r hr s hs
    simp only [List.mem_singleton] at hs
    subst hs
    simp only [List.any_eq_true, not_exists, not_and] at ha
    have := ha r hr
    simp only [bMatch, Bool.and_eq_true, decide_eq_true_eq] at this
    simp only [keyB, ne_eq, Prod.mk.injEq]
    tauto

/-- Under the primary-key invariant at most one row matches any
(bank, key) filter. -/
theorem uniqJ_filter_length (db : List JRow) (h : uniqJ db)
    (bank key : String) : (db.filter (jMatch bank key)).length ≤ 1 := by
  induction db with
  | nil => simp
  | cons r tl ih =>
      have hp := List.pairwise_cons.mp h
      by_cases hr : jMatch bank key r
      · have hnil : tl.filter (jMatch bank key) = [] := by
          refine List.filter_eq_nil_iff.mpr ?_
          intro s hs hms
          exact hp.1 s hs (by
            rw [(jMatch_iff bank key r).mp hr, (jMatch_iff bank key s).mp hms])
        simp [List.filter_cons, hr, hnil]
      · simp only [List.filter_cons, hr, Bool.false_eq_true, if_false]
        exact ih hp.2

/-- Under the primary-key invariant at most one row matches any
(bank, key) filter. -/
theorem uniqB_filter_length (db : List BRow) (h : uniqB db)
    (bank key : String) : (db.filter (bMatch bank key)).length ≤ 1 := by
  induction db with
  | nil => simp
  | cons r tl ih =>
      have hp := List.pairwise_cons.mp h
      by_cases hr : bMatch bank key r
      · have hnil : tl.filter (bMatch bank key) = [] := by
          refine List.filter_eq_nil_iff.mpr ?_
          intro s hs hms
          exact hp.1 s hs (by
            rw [(bMatch_iff bank key r).mp hr, (bMatch_iff bank key s).mp hms])
        simp [List.filter_cons, hr, hnil]
      · simp only [List.filter_cons, hr, Bool.false_eq_true, if_false]
        exact ih hp.2

/-- Every matching row carries the upserted payload afterwards. -/
theorem upsertJ_match_data (db : List JRow) (bank key : String) (j : JVal)
    (enc : Bool) (now : Int) :
    ∀ r ∈ upsertJ db bank key j enc now, jMatch bank key r = true →
      r.data = j ∧ r.encoded = enc := by
  unfold upsertJ
  by_cases ha : db.any (jMatch bank key)
  · rw [if_pos ha]
    intro r hr hm
    rcases List.mem_map.mp hr with ⟨s, _, rfl⟩
    by_cases hms : jMatch bank key s
    · simp [hms]
    · simp only [hms, Bool.false_eq_true, if_false] at hm
  · rw [if_neg ha]
    intro r hr hm
    rcases List.mem_append.mp hr with hin | hin
    · exfalso
      simp only [List.any_eq_true, not_exists, not_and] at ha
      exact ha r hin hm
    · simp only [List.mem_singleton] at hin
      subst hin
      exact ⟨rfl, rfl⟩

/-- Every matching row carries the upserted payload afterwards. -/
theorem upsertB_match_data (db : List BRow) (bank key : String)
    (d : List Nat) (newId : String) (now : Int) :
    ∀ r ∈ upsertB db bank key d newId now, bMatch bank key r = true →
      r.data = d := by
  unfold upsertB
  by_cases ha : db.any (bMatch bank key)
  · rw [if_pos ha]
    intro r hr hm
    rcases List.mem_map.mp hr with ⟨s, _, rfl⟩
    by_cases hms : bMatch bank key s
    · simp [hms]
    · simp only [hms, Bool.false_eq_true, if_false] at hm
  · rw [if_neg ha]
    intro r hr hm
    rcases List.mem_append.mp hr with hin | hin
    · exfalso
      simp only [List.any_eq_true, not_exists, not_and] at ha
      exact ha r hin hm
    · simp only [List.mem_singleton] at hin
      subst hin
      rfl

/-- Upserting onto an existing (bank, key) does not grow the table. -/
theorem upsertB_length (db : List BRow) (bank key : String) (d : List Nat)
    (newId : String) (now : Int) (ha : db.any (bMatch bank key) = true) :
    (upsertB db bank key d newId now).length = db.length := by
  unfold upsertB
  rw [if_pos ha]
  simp

/-- Upserting onto an existing (bank, key) does not grow the table. -/
theorem upsertJ_length (db : List JRow) (bank key : String) (j : JVal)
    (enc : Bool) (now : Int) (ha : db.any (jMatch bank key) = true) :
    (upsertJ db bank key j enc now).length = db.length := by
  unfold upsertJ
  rw [if_pos ha]
  simp

/-! ## Claim theorems -/

/-- A concrete codec instance for witness theorems: it round-trips the
value `PVal.pnull`. -/
def witCodec : Codec := ⟨fun _ => [0], fun _ => some .pnull⟩

/-- C3: on a (bank, key) with no matching row, `fetch` returns the empty
mapping `{}`, `updated` returns 0, `contains` returns false, and the
binary variant's `id` returns the nil UUID; none of these operations
raises on the missing row. -/
theorem c3_miss_defaults (c : Codec) (bdb : List BRow) (jdb : List JRow)
    (t bank key : String)
    (hb : ∀ r ∈ bdb, ¬(r.bank = bank ∧ r.psql_key = key))
    (hj : ∀ r ∈ jdb, ¬(r.bank = bank ∧ r.psql_key = key)) :
    (fetchB c bdb true none t bank key).res = .ok (.pdict .nil) ∧
    (updatedB bdb true none t bank key).res = .ok 0 ∧
    (containsB bdb true none bank key).res = .ok false ∧
    (idB bdb true none t bank key).res = .ok nilUuid ∧
    (fetchJ jdb true none t bank key).res = .ok (.pdict .nil) ∧
    (updatedJ jdb true none t bank key).res = .ok 0 ∧
    (containsJ jdb true none bank key).res = .ok false := by
  have hfb : bdb.filter (bMatch bank key) = [] :=
    List.filter_eq_nil_iff.mpr (fun r hr => by
      simp only [bMatch, Bool.and_eq_true, decide_eq_true_eq]
      exact hb r hr)
  have hfj : jdb.filter (jMatch bank key) = [] :=
    List.filter_eq_nil_iff.mpr (fun r hr => by
      simp only [jMatch, Bool.and_eq_true, decide_eq_true_eq]
      exact hj r hr)
  refine ⟨?_, ?_, ?_, ?_, ?_, ?_, ?_⟩
  · simp [fetchB, selectDataB, hfb, getServ]
  · simp [updatedB, hfb, getServ]
  · simp [containsB, hfb, getServ]
  · simp [idB, hfb, getServ]
  · simp [fetchJ, selectJ, hfj, getServ]
  · simp [updatedJ, hfj, getServ]
  · simp [containsJ, hfj, getServ]

/-- Witness for C3 at the empty table. -/
theorem c3_witness :
    (fetchB witCodec [] true none "t" "b" "k").res = .ok (.pdict .nil) :=
  (c3_miss_defaults witCodec [] [] "t" "b" "k"
    (by simp) (by simp)).1

/-- C4: `store` is an upsert: a successful store leaves the table in the
upserted state, preserves the primary-key invariant (hence at most one
row per (bank, key), also after any sequence of stores), updates every
matching row's payload (and, in the JSON variant, its `encoded` flag) in
place, and does not grow the table when the pair already exists. -/
theorem c4_store_upsert (c : Codec) (bdb : List BRow) (jdb : List JRow)
    (t bank key : String) (v : PVal) (j : JVal) (nid : String) (now : Int) :
    ((storeB c bdb true none t bank key v nid now).2
       = upsertB bdb bank key (c.dumps v) nid now) ∧
    (uniqB bdb → uniqB (storeB c bdb true none t bank key v nid now).2) ∧
    (uniqB bdb → ∀ b2 k2,
      (((storeB c bdb true none t bank key v nid now).2).filter
        (bMatch b2 k2)).length ≤ 1) ∧
    (∀ r ∈ (storeB c bdb true none t bank key v nid now).2,
      bMatch bank key r = true → r.data = c.dumps v) ∧
    (bdb.any (bMatch bank key) = true →
      ((storeB c bdb true none t bank key v nid now).2).length = bdb.length) ∧
    (pvalToJson (jsonbPrep v).1 = some j →
      ((storeJ jdb true none t bank key v now).2
         = upsertJ jdb bank key j (jsonbPrep v).2 now) ∧
      (uniqJ jdb → uniqJ (storeJ jdb true none t bank key v now).2) ∧
      (∀ r ∈ (storeJ jdb true none t bank key v now).2,
        jMatch bank key r = true → r.data = j ∧ r.encoded = (jsonbPrep v).2) ∧
      (jdb.any (jMatch bank key) = true →
        ((storeJ jdb true none t bank key v now).2).length = jdb.length)) ∧
    (uniqB bdb → ∀ (ops : List (String × String × PVal)),
      uniqB (ops.foldl (fun d a =>
        (storeB c d true none t a.1 a.2.1 a.2.2 nid now).2) bdb)) := by
  have hsB : (storeB c bdb true none t bank key v nid now).2
      = upsertB bdb bank key (c.dumps v) nid now := rfl
  refine ⟨hsB, ?_, ?_, ?_, ?_, ?_, ?_⟩
  · intro hu
    rw [hsB]
    exact uniqB_upsertB bdb bank key (c.dumps v) nid now hu
  · intro hu b2 k2
    rw [hsB]
    exact uniqB_filter_length _ (uniqB_upsertB bdb bank key (c.dumps v) nid now hu) b2 k2
  · rw [hsB]
    exact upsertB_match_data bdb bank key (c.dumps v) nid now
  · intro ha
    rw [hsB]
    exact upsertB_length bdb bank key (c.dumps v) nid now ha
  · intro hser
    have hsJ : (storeJ jdb true none t bank key v now).2
        = upsertJ jdb bank key j (jsonbPrep v).2 now := by
      simp [storeJ, hser]
    refine ⟨hsJ, ?_, ?_, ?_⟩
    · intro hu
      rw [hsJ]
      exact uniqJ_upsertJ jdb bank key j (jsonbPrep v).2 now hu
    · rw [hsJ]
      exact upsertJ_match_data jdb bank key j (jsonbPrep v).2 now
    · intro ha
      rw [hsJ]
      exact upsertJ_length jdb bank key j (jsonbPrep v).2 now ha
  · intro hu ops
    have foldAux : ∀ (ops2 : List (String × String × PVal)) (db : List BRow),
        uniqB db → uniqB (ops2.foldl (fun d a =>
          (storeB c d true none t a.1 a.2.1 a.2.2 nid now).2) db) := by
      intro ops2
      induction ops2 with
      | nil => intro db hdb; simpa using hdb
      | cons op tl ih =>
          intro db hdb
          simp only [List.foldl_cons]
          exact ih _ (uniqB_upsertB db op.1 op.2.1 (c.dumps op.2.2) nid now hdb)
    exact foldAux ops bdb hu

/-- Witness for C4 at the empty table. -/
theorem c4_witness : uniqB (storeB witCodec [] true none "t" "b" "k"
    PVal.pnull "u" 0).2 :=
  (c4_store_upsert witCodec [] [] "t" "b" "k" .pnull .jnull "u" 0).2.1
    List.Pairwise.nil

/-- C5: the `_get_serv` scope: a clean body is followed by COMMIT when
the scope was opened with commit=true and by an explicit ROLLBACK
otherwise; a database-level escape is logged, rolled back and re-raised;
any other escape skips both arms; and the connection close is the
unconditional final action of every post-connect path. -/
theorem c5_scope_discipline (commit : Bool) (acts : List Action)
    (res : Except PyError Nat) :
    getServ true commit ⟨acts, res⟩ =
      ⟨Action.connect :: (acts ++
        (match res with
         | .ok _ => [if commit then Action.sqlCommit else Action.sqlRollback,
             Action.close]
         | .error e =>
             if e.isDatabaseError then
               [Action.logError, Action.sqlRollback, Action.close]
             else [Action.close])), res⟩ ∧
    (getServ true commit ⟨acts, res⟩).acts.getLast? = some Action.close := by
  have key : ∀ (l m : List Action),
      (Action.connect :: (l ++ (m ++ [Action.close]))).getLast?
        = some Action.close := by
    intro l m
    rw [show Action.connect :: (l ++ (m ++ [Action.close]))
        = (Action.connect :: (l ++ m)) ++ [Action.close] by simp]
    exact List.getLast?_concat _
  have h1 : getServ true commit ⟨acts, res⟩ =
      ⟨Action.connect :: (acts ++
        (match res with
         | .ok _ => [if commit then Action.sqlCommit else Action.sqlRollback,
             Action.close]
         | .error e =>
             if e.isDatabaseError then
               [Action.logError, Action.sqlRollback, Action.close]
             else [Action.close])), res⟩ := by
    cases res with
    | ok a => simp [getServ]
    | error e => by_cases hd : e.isDatabaseError <;> simp [getServ, hd]
  refine ⟨h1, ?_⟩
  rw [h1]
  cases res with
  | ok a =>
      exact key acts [if commit then Action.sqlCommit else Action.sqlRollback]
  | error e =>
      by_cases hd : e.isDatabaseError
      · simp only [hd, if_true]
        exact key acts [Action.logError, Action.sqlRollback]
      · simp only [hd, Bool.false_eq_true, if_false]
        exact key acts []

/-- C10: the `list_` result expression is total over every raw query
result shape: it keeps exactly the first element of each length-1 row,
drops every other row, maps a `None` or empty result to the empty tuple,
and never raises. -/
theorem c10_list_total (res : Option (List (List Nat))) :
    (getServ true true (listBody none res)).res =
      .ok ((res.getD []).filterMap (fun r =>
        match r with
        | [c] => some c
        | _ => none)) := by
  have hfun : (fun r : List Nat => if r.length = 1 then r.head? else none)
      = (fun r : List Nat =>
          match r with
          | [c] => some c
          | _ => none) := by
    funext r
    match r with
    | [] => rfl
    | [c] => rfl
    | a :: b :: tl => simp
  cases res with
  | none => rfl
  | some rows =>
      cases rows with
      | nil => rfl
      | cons r tl =>
          simp [getServ, listBody, listRowsExpr, hfun]

/-- When the payload serializes (so it is not a bytes value), the store
prologue leaves it unchanged with `encoded = false`. -/
theorem jsonbPrep_of_serializable (v : PVal) (j : JVal)
    (h : pvalToJson v = some j) : jsonbPrep v = (v, false) := by
  cases v <;> first
  | rfl
  | (exfalso; simp [pvalToJson] at h)

/-- `fetch` (JSON variant) on a first row whose `encoded` flag is set:
the stored base64 text is decoded back to bytes. -/
theorem fetchJ_encoded_row (db : List JRow) (t bank key : String)
    (s bs : List Nat)
    (h : (selectJ db bank key).head? = some (.jstr s, true))
    (hdec : b64decode s = some bs) :
    (fetchJ db true none t bank key).res = .ok (.pbytes bs) := by
  cases hsel : selectJ db bank key with
  | nil => rw [hsel] at h; simp at h
  | cons hd tl =>
      rw [hsel] at h
      simp only [List.head?_cons, Option.some.injEq] at h
      subst h
      simp [fetchJ, hsel, hdec, getServ]

/-- `fetch` (JSON variant) on a first row whose `encoded` flag is clear:
the JSON value is returned as parsed. -/
theorem fetchJ_plain_row (db : List JRow) (t bank key : String) (j : JVal)
    (h : (selectJ db bank key).head? = some (j, false)) :
    (fetchJ db true none t bank key).res = .ok (jsonToPVal j) := by
  cases hsel : selectJ db bank key with
  | nil => rw [hsel] at h; simp at h
  | cons hd tl =>
      rw [hsel] at h
      simp only [List.head?_cons, Option.some.injEq] at h
      subst h
      simp [fetchJ, hsel, getServ]

/-- `fetch` (binary variant) on a first row that deserializes. -/
theorem fetchB_row (c : Codec) (db : List BRow) (t bank key : String)
    (d : List Nat) (v : PVal)
    (h : (selectDataB db bank key).head? = some d)
    (hl : c.loads d = some v) :
    (fetchB c db true none t bank key).res = .ok v := by
  cases hsel : selectDataB db bank key with
  | nil => rw [hsel] at h; simp at h
  | cons d0 tl =>
      rw [hsel] at h
      simp only [List.head?_cons, Option.some.injEq] at h
      subst h
      simp [fetchB, hsel, hl, getServ]

/-- C6: a statement failure during `store` (constraint violation,
data-type mismatch, or generic store error) is logged with its
diagnostic context (table, bank, key, payload), the operation still
returns None (no exception propagates), and the table is unchanged. -/
theorem c6_store_swallow (c : Codec) (bdb : List BRow) (jdb : List JRow)
    (e : PgError) (t bank key : String) (v : PVal) (nid : String)
    (now : Int) :
    ((storeB c bdb true (some e) t bank key v nid now).1.res = .ok () ∧
     (storeB c bdb true (some e) t bank key v nid now).2 = bdb ∧
     Action.logDiag t bank key (.raw (c.dumps v))
       ∈ (storeB c bdb true (some e) t bank key v nid now).1.acts) ∧
    (∀ j, pvalToJson (jsonbPrep v).1 = some j →
      (storeJ jdb true (some e) t bank key v now).1.res = .ok () ∧
      (storeJ jdb true (some e) t bank key v now).2 = jdb ∧
      Action.logDiag t bank key (.js j)
        ∈ (storeJ jdb true (some e) t bank key v now).1.acts) := by
  refine ⟨⟨rfl, rfl, ?_⟩, ?_⟩
  · simp [storeB, getServ]
  · intro j hser
    refine ⟨?_, ?_, ?_⟩ <;> simp [storeJ, hser, getServ]

/-- Witness for C6. -/
theorem c6_witness :
    (storeJ [] true (some .integrityError) "t" "b" "k" PVal.pnull 0).1.res
      = .ok () :=
  ((c6_store_swallow witCodec [] [] .integrityError "t" "b" "k" .pnull
    "u" 0).2 .jnull rfl).1

/-- C7 counterexample: with an empty-string key argument, `flush` takes
the "key omitted" branch (Python `if key:` is false for `""`) and
deletes the whole bank, here including a row whose key `"x"` does not
match the given key `""`. -/
theorem c7_counterexample :
    (flushB [⟨"b", "", [0], "u1", 0⟩, ⟨"b", "x", [1], "u2", 0⟩]
      true none "t" "b" (some "")).2 = [] ∧
    ("x" : String) ≠ "" := by decide

/-- C7 (amended): `flush(bank)` with no key, or with an empty-string
key, deletes exactly the rows of that bank; with a non-empty key it
deletes exactly the rows matching (bank, key) (at most one under the
primary-key invariant); rows of other banks are never removed; and
flush returns true when the delete statement executed and false when
the statement raised a store error. -/
theorem c7_flush_amended (bdb : List BRow) (e : PgError)
    (t bank key : String) :
    (∀ k2 : Option String, ∀ r ∈ bdb, r.bank ≠ bank →
      r ∈ (flushB bdb true none t bank k2).2) ∧
    ((flushB bdb true none t bank none).2
      = bdb.filter (fun r => !(r.bank = bank))) ∧
    (key ≠ "" →
      (flushB bdb true none t bank (some key)).2
        = bdb.filter (fun r => !(r.bank = bank && r.psql_key = key))) ∧
    (uniqB bdb → (bdb.filter (bMatch bank key)).length ≤ 1) ∧
    ((flushB bdb true none t bank (some key)).1.res = .ok true ∧
     (flushB bdb true (some e) t bank (some key)).1.res = .ok false ∧
     (flushB bdb true (some e) t bank (some key)).2 = bdb) := by
  refine ⟨?_, rfl, ?_, ?_, rfl, rfl, rfl⟩
  · intro k2 r hr hbk
    show r ∈ deleteB bdb bank k2
    unfold deleteB
    by_cases hk : keyTruthy k2
    · rw [if_pos hk]
      refine List.mem_filter.mpr ⟨hr, ?_⟩
      simp [bMatch, hbk]
    · rw [if_neg hk]
      refine List.mem_filter.mpr ⟨hr, ?_⟩
      simp [hbk]
  · intro hk
    show deleteB bdb bank (some key)
      = bdb.filter (fun r => !(r.bank = bank && r.psql_key = key))
    unfold deleteB
    rw [if_pos (by simp [keyTruthy, hk])]
    rfl
  · intro hu
    exact uniqB_filter_length bdb hu bank key

/-- Witness for C7 (amended): flushing bank "b" with key "x" leaves a
row of bank "a" untouched. -/
theorem c7_witness :
    (flushB [⟨"a", "x", [0], "u", 0⟩] true none "t" "b" (some "x")).2
      = [⟨"a", "x", [0], "u", 0⟩] := by
  have h := (c7_flush_amended [⟨"a", "x", [0], "u", 0⟩]
    .integrityError "t" "b" "x").2.2.1 (by decide)
  rw [h]
  decide

/-- C1 counterexample: in the JSON variant, a bytes payload that is
valid UTF-8 (here b"hi") is coerced to text on store, and fetch returns
that text, not a value equal to the stored bytes. -/
theorem c1_counterexample :
    (fetchJ (storeJ [] true none "t" "bank1" "k1"
        (.pbytes [104, 105]) 7).2 true none "t" "bank1" "k1").res
      = .ok (.pstr [104, 105]) ∧
    PVal.pstr [104, 105] ≠ PVal.pbytes [104, 105] := by decide

/-- C1 (amended): fetch after store returns a value equal to v in the
binary variant whenever the external codec round-trips v; in the JSON
variant, a non-UTF8 bytes value is returned exactly as stored, a
JSON-serializable (bytes-free) value is returned equal to itself, but a
valid-UTF8 bytes value is returned as its decoded text rather than as
bytes. -/
theorem c1_roundtrip_amended (c : Codec) (bdb : List BRow)
    (jdb : List JRow) (t bank key : String) (v : PVal) (nid : String)
    (now : Int) :
    (c.loads (c.dumps v) = some v →
      (fetchB c (storeB c bdb true none t bank key v nid now).2
        true none t bank key).res = .ok v) ∧
    (∀ bs, utf8Decode bs = none → (∀ x ∈ bs, x < 256) →
      (fetchJ (storeJ jdb true none t bank key (.pbytes bs) now).2
        true none t bank key).res = .ok (.pbytes bs)) ∧
    (∀ bs cps, utf8Decode bs = some cps →
      (fetchJ (storeJ jdb true none t bank key (.pbytes bs) now).2
        true none t bank key).res = .ok (.pstr cps)) ∧
    (∀ j, pvalToJson v = some j →
      (fetchJ (storeJ jdb true none t bank key v now).2
        true none t bank key).res = .ok v) := by
  refine ⟨?_, ?_, ?_, ?_⟩
  · intro hrt
    have hdb : (storeB c bdb true none t bank key v nid now).2
        = upsertB bdb bank key (c.dumps v) nid now := rfl
    rw [hdb]
    exact fetchB_row c _ t bank key (c.dumps v) v
      (selectDataB_upsertB_head bdb bank key (c.dumps v) nid now) hrt
  · intro bs hne hlt
    have hprep : jsonbPrep (.pbytes bs) = (.pstr (b64encode bs), true) := by
      simp [jsonbPrep, hne]
    have hdb : (storeJ jdb true none t bank key (.pbytes bs) now).2
        = upsertJ jdb bank key (.jstr (b64encode bs)) true now := by
      simp [storeJ, hprep, pvalToJson]
    rw [hdb]
    exact fetchJ_encoded_row _ t bank key (b64encode bs) bs
      (selectJ_upsertJ_head jdb bank key (.jstr (b64encode bs)) true now)
      (b64decode_b64encode bs hlt)
  · intro bs cps hsome
    have hprep : jsonbPrep (.pbytes bs) = (.pstr cps, false) := by
      simp [jsonbPrep, hsome]
    have hdb : (storeJ jdb true none t bank key (.pbytes bs) now).2
        = upsertJ jdb bank key (.jstr cps) false now := by
      simp [storeJ, hprep, pvalToJson]
    rw [hdb]
    have h := fetchJ_plain_row _ t bank key (.jstr cps)
      (selectJ_upsertJ_head jdb bank key (.jstr cps) false now)
    simpa [jsonToPVal] using h
  · intro j hser
    have hprep := jsonbPrep_of_serializable v j hser
    have hdb : (storeJ jdb true none t bank key v now).2
        = upsertJ jdb bank key j false now := by
      simp [storeJ, hprep, hser]
    rw [hdb]
    have h := fetchJ_plain_row _ t bank key j
      (selectJ_upsertJ_head jdb bank key j false now)
    rw [pvalToJson_roundtrip v j hser] at h
    exact h

/-- Witness for C1 (amended). -/
theorem c1_witness :
    (fetchB witCodec (storeB witCodec [] true none "t" "b" "k"
      PVal.pnull "u" 0).2 true none "t" "b" "k").res = .ok .pnull :=
  (c1_roundtrip_amended witCodec [] [] "t" "b" "k" .pnull "u" 0).1 rfl

/-- C2 counterexample: a statement error during `fetch` (here a
`psycopg2.ProgrammingError` out of `cur.execute`) is re-raised by
`_get_serv` and reaches the caller as an exception that is not the
distinguished connection-failure error. -/
theorem c2_counterexample :
    (fetchB witCodec [] true (some .programmingError) "t" "b" "k").res
      = .error (.pg .programmingError) ∧
    PyError.pg .programmingError ≠ .saltMasterError := by decide

/-- C2 (amended): connection failure propagates from every public
operation of both variants as the distinguished `SaltMasterError`;
statement errors during `store` and `flush` are absorbed into the
return value; but a database-level statement error during `fetch`,
`list`, `contains`, `updated` or `id` is re-raised to the caller after
the scope logs and rolls back, and a payload decode failure during
`fetch` (a payload the codec cannot deserialize in the binary variant,
an encoded row whose text is not valid base64 in the JSON variant) also
escapes to the caller. -/
theorem c2_propagation_amended (c : Codec) (bdb : List BRow)
    (jdb : List JRow) (e : PgError) (t bank key : String) (v : PVal)
    (nid : String) (now : Int) :
    ((storeB c bdb false none t bank key v nid now).1.res
        = .error .saltMasterError ∧
     (fetchB c bdb false none t bank key).res = .error .saltMasterError ∧
     (flushB bdb false none t bank none).1.res = .error .saltMasterError ∧
     (listB bdb false none bank).res = .error .saltMasterError ∧
     (containsB bdb false none bank key).res = .error .saltMasterError ∧
     (updatedB bdb false none t bank key).res = .error .saltMasterError ∧
     (idB bdb false none t bank key).res = .error .saltMasterError ∧
     (storeJ jdb false none t bank key v now).1.res
        = .error .saltMasterError ∧
     (fetchJ jdb false none t bank key).res = .error .saltMasterError ∧
     (flushJ jdb false none t bank none).1.res = .error .saltMasterError ∧
     (listJ jdb false none bank).res = .error .saltMasterError ∧
     (containsJ jdb false none bank key).res = .error .saltMasterError ∧
     (updatedJ jdb false none t bank key).res = .error .saltMasterError) ∧
    ((storeB c bdb true (some e) t bank key v nid now).1.res = .ok () ∧
     (flushB bdb true (some e) t bank (some key)).1.res = .ok false ∧
     (flushJ jdb true (some e) t bank (some key)).1.res = .ok false) ∧
    ((fetchB c bdb true (some e) t bank key).res = .error (.pg e) ∧
     (listB bdb true (some e) bank).res = .error (.pg e) ∧
     (containsB bdb true (some e) bank key).res = .error (.pg e) ∧
     (updatedB bdb true (some e) t bank key).res = .error (.pg e) ∧
     (idB bdb true (some e) t bank key).res = .error (.pg e) ∧
     (fetchJ jdb true (some e) t bank key).res = .error (.pg e) ∧
     (listJ jdb true (some e) bank).res = .error (.pg e) ∧
     (containsJ jdb true (some e) bank key).res = .error (.pg e) ∧
     (updatedJ jdb true (some e) t bank key).res = .error (.pg e)) ∧
    ((∀ d, (selectDataB bdb bank key).head? = some d → c.loads d = none →
      (fetchB c bdb true none t bank key).res
        = .error .saltDeserializationError) ∧
     (∀ s, (selectJ jdb bank key).head? = some (.jstr s, true) →
      b64decode s = none →
      (fetchJ jdb true none t bank key).res = .error .binasciiError)) := by
  refine ⟨⟨rfl, rfl, rfl, rfl, rfl, rfl, rfl, rfl, rfl, rfl, rfl, rfl, rfl⟩,
    ⟨rfl, rfl, rfl⟩,
    ⟨?_, ?_, ?_, ?_, ?_, ?_, ?_, ?_, ?_⟩, ?_, ?_⟩
  case _ => cases e <;> rfl
  case _ => cases e <;> rfl
  case _ => cases e <;> rfl
  case _ => cases e <;> rfl
  case _ => cases e <;> rfl
  case _ => cases e <;> rfl
  case _ => cases e <;> rfl
  case _ => cases e <;> rfl
  case _ => cases e <;> rfl
  case _ =>
    intro d hrow hl
    cases hsel : selectDataB bdb bank key with
    | nil => rw [hsel] at hrow; simp at hrow
    | cons d0 tl =>
        rw [hsel] at hrow
        simp only [List.head?_cons, Option.some.injEq] at hrow
        subst hrow
        simp [fetchB, hsel, hl, getServ, PyError.isDatabaseError]
  case _ =>
    intro s hrow hdec
    cases hsel : selectJ jdb bank key with
    | nil => rw [hsel] at hrow; simp at hrow
    | cons hd tl =>
        rw [hsel] at hrow
        simp only [List.head?_cons, Option.some.injEq] at hrow
        subst hrow
        simp [fetchJ, hsel, hdec, getServ, PyError.isDatabaseError]

/-- A codec whose deserialization always fails, for the C2 witness. -/
def failCodec : Codec := ⟨fun _ => [0], fun _ => none⟩

/-- Witness for C2 (amended): a stored payload the codec cannot
deserialize makes `fetch` raise a deserialization error. -/
theorem c2_witness :
    (fetchB failCodec [⟨"b", "k", [9], "u", 0⟩] true none "t" "b" "k").res
      = .error .saltDeserializationError :=
  (c2_propagation_amended failCodec [⟨"b", "k", [9], "u", 0⟩] []
    .programmingError "t" "b" "k" .pnull "u" 0).2.2.2.1 [9] (by decide) rfl

/-- C8: in the JSON variant, non-UTF8 bytes are stored as base64 text
with `encoded = true`, valid-UTF8 bytes as their decoded text with
`encoded = false`; fetch reverses the base64 transformation exactly when
the row's `encoded` flag is set; hence a non-UTF8 bytes value such as
b"\xff\xfe\x00" is returned by fetch exactly as stored. -/
theorem c8_json_encoding (jdb : List JRow) (t bank key : String)
    (bs : List Nat) (now : Int) :
    (utf8Decode bs = none →
      (storeJ jdb true none t bank key (.pbytes bs) now).2
        = upsertJ jdb bank key (.jstr (b64encode bs)) true now) ∧
    (∀ cps, utf8Decode bs = some cps →
      (storeJ jdb true none t bank key (.pbytes bs) now).2
        = upsertJ jdb bank key (.jstr cps) false now) ∧
    (∀ s ds, (selectJ jdb bank key).head? = some (.jstr s, true) →
      b64decode s = some ds →
      (fetchJ jdb true none t bank key).res = .ok (.pbytes ds)) ∧
    (∀ j, (selectJ jdb bank key).head? = some (j, false) →
      (fetchJ jdb true none t bank key).res = .ok (jsonToPVal j)) ∧
    (utf8Decode bs = none → (∀ x ∈ bs, x < 256) →
      (fetchJ (storeJ jdb true none t bank key (.pbytes bs) now).2
        true none t bank key).res = .ok (.pbytes bs)) := by
  refine ⟨?_, ?_, ?_, ?_, ?_⟩
  · intro hne
    have hprep : jsonbPrep (.pbytes bs) = (.pstr (b64encode bs), true) := by
      simp [jsonbPrep, hne]
    simp [storeJ, hprep, pvalToJson]
  · intro cps hsome
    have hprep : jsonbPrep (.pbytes bs) = (.pstr cps, false) := by
      simp [jsonbPrep, hsome]
    simp [storeJ, hprep, pvalToJson]
  · intro s ds hrow hdec
    exact fetchJ_encoded_row jdb t bank key s ds hrow hdec
  · intro j hrow
    exact fetchJ_plain_row jdb t bank key j hrow
  · intro hne hlt
    have hprep : jsonbPrep (.pbytes bs) = (.pstr (b64encode bs), true) := by
      simp [jsonbPrep, hne]
    have hdb : (storeJ jdb true none t bank key (.pbytes bs) now).2
        = upsertJ jdb bank key (.jstr (b64encode bs)) true now := by
      simp [storeJ, hprep, pvalToJson]
    rw [hdb]
    exact fetchJ_encoded_row _ t bank key (b64encode bs) bs
      (selectJ_upsertJ_head jdb bank key (.jstr (b64encode bs)) true now)
      (b64decode_b64encode bs hlt)

/-- Witness for C8 at the spec's example payload b"\xff\xfe\x00". -/
theorem c8_witness :
    (fetchJ (storeJ [] true none "salt_cache" "bank1" "k1"
        (.pbytes [255, 254, 0]) 0).2 true none "salt_cache" "bank1"
      "k1").res = .ok (.pbytes [255, 254, 0]) :=
  (c8_json_encoding [] "salt_cache" "bank1" "k1" [255, 254, 0] 0).2.2.2.2
    (by decide) (by decide)

/-- C9 counterexample: the resolver does not return a descriptor for
every host mapping: a present but non-numeric port option makes
`int(...)` raise `ValueError`, which escapes `_get_options`. -/
theorem c9_counterexample :
    getOptionsBytea [("cache.pgbytea.port", .vstr "abc")]
      = .error .valueError := by decide

/-- C9 (amended): whenever the resolver returns a descriptor (it does
for every mapping whose port option, if present, is an integer or an
integer string), each absent field takes its documented default, the
legacy "passwd" and "database" options are accepted as fallback sources
with the canonical option winning, and the resolver is a pure function
of the mapping (the code pops only a deep copy, so the host
configuration is never mutated). -/
theorem c9_resolver_amended (opts : List (String × OptVal)) :
    (∀ o, getOptionsBytea opts = .ok o →
      (opts.lookup "cache.pgbytea.host" = none →
        o.host = .vstr "127.0.0.1") ∧
      (opts.lookup "cache.pgbytea.user" = none → o.user = .vnone) ∧
      (opts.lookup "cache.pgbytea.table_name" = none →
        o.table = .vstr "salt_cache") ∧
      (opts.lookup "cache.pgbytea.port" = none → o.port = 5432) ∧
      (opts.lookup "cache.pgbytea.password" = none →
        o.password = (opts.lookup "cache.pgbytea.passwd").getD .vnone) ∧
      (∀ w, opts.lookup "cache.pgbytea.password" = some w →
        o.password = w) ∧
      (opts.lookup "cache.pgbytea.dbname" = none →
        o.dbname
          = (opts.lookup "cache.pgbytea.database").getD (.vstr "salt_cache")) ∧
      (∀ w, opts.lookup "cache.pgbytea.dbname" = some w → o.dbname = w)) ∧
    (opts.lookup "cache.pgbytea.port" = none →
      ∃ o, getOptionsBytea opts = .ok o) ∧
    (∀ o, getOptionsJsonb opts = .ok o →
      (opts.lookup "cache.pgjsonb_encoded.host" = none →
        o.host = .vstr "127.0.0.1") ∧
      (opts.lookup "cache.pgjsonb_encoded.password" = none →
        o.password
          = (opts.lookup "cache.pgjsonb_encoded.passwd").getD .vnone) ∧
      (∀ w, opts.lookup "cache.pgjsonb_encoded.password" = some w →
        o.password = w)) := by
  refine ⟨?_, ?_, ?_⟩
  · intro o hok
    unfold getOptionsBytea at hok
    cases hp : pyIntOf (popOpt opts "cache.pgbytea.port" (.vint 5432)) with
    | error e2 => rw [hp] at hok; simp at hok
    | ok p =>
        rw [hp] at hok
        simp only [Except.ok.injEq] at hok
        subst hok
        refine ⟨?_, ?_, ?_, ?_, ?_, ?_, ?_, ?_⟩
        · intro habs; simp [popOpt, habs]
        · intro habs; simp [popOpt, habs]
        · intro habs; simp [popOpt, habs]
        · intro habs
          rw [popOpt, habs] at hp
          simp only [Option.getD_none, pyIntOf, Except.ok.injEq] at hp
          simp [hp]
        · intro habs; simp [popOpt, habs]
        · intro w hw; simp [popOpt, hw]
        · intro habs; simp [popOpt, habs]
        · intro w hw; simp [popOpt, hw]
  · intro habs
    unfold getOptionsBytea
    have hp : pyIntOf (popOpt opts "cache.pgbytea.port" (.vint 5432))
        = .ok 5432 := by
      simp [popOpt, habs, pyIntOf]
    rw [hp]
    exact ⟨_, rfl⟩
  · intro o hok
    unfold getOptionsJsonb at hok
    cases hp : pyIntOf (popOpt opts "cache.pgjsonb_encoded.port" (.vint 5432)) with
    | error e2 => rw [hp] at hok; simp at hok
    | ok p =>
        rw [hp] at hok
        simp only [Except.ok.injEq] at hok
        subst hok
        refine ⟨?_, ?_, ?_⟩
        · intro habs; simp [popOpt, habs]
        · intro habs; simp [popOpt, habs]
        · intro w hw; simp [popOpt, hw]

/-- Witness for C9 (amended): the deprecated "passwd" option feeds the
password field when the canonical option is absent. -/
theorem c9_witness :
    (PgOptions.mk (.vstr "127.0.0.1") .vnone (.vstr "pw")
        (.vstr "salt_cache") (.vstr "salt_cache") 5432).password
      = (([("cache.pgbytea.passwd", OptVal.vstr "pw")].lookup
          "cache.pgbytea.passwd").getD .vnone) :=
  ((c9_resolver_amended [("cache.pgbytea.passwd", .vstr "pw")]).1
    (PgOptions.mk (.vstr "127.0.0.1") .vnone (.vstr "pw")
      (.vstr "salt_cache") (.vstr "salt_cache") 5432)
    (by decide)).2.2.2.2.1 (by decide)

end SaltCache
